import Mathlib

/-!
Verification of the session-lifecycle manager and streaming protocol pipeline
of the iflow-chatbot repository.

The development shallowly embeds, faithfully to the TypeScript source:
  * the canonical event model (`SSEData`, output of `adaptIFlowMessage`);
  * the server-side stream coordinator loop of `src/app/api/iflow/chat/route.ts`
    (`routeRun`), together with its output sink (`Sink`, modelling the
    `ReadableStream` controller with its try/catch guards);
  * the session pool of `src/lib/iflow/session-manager.ts`
    (`getOrCreateSession`, `createSession`, `destroySession`,
    `evictOldestSession`, history-context construction);
  * the client-side stream consumer and conversation reducer of
    `src/hooks/use-iflow-chat.ts` (`processChunk`, `messagesReducer`),
    including a small executable JSON parser standing in for `JSON.parse`
    (sufficient for the JSON sublanguage the protocol emits).

JavaScript strings are modelled as Lean `String` (a list of characters;
JS code-unit indexing and Lean character indexing agree on the inputs
considered here).  JavaScript `undefined` for an optional field is `none`.
JS `Map` is an insertion-ordered association list.
-/

/-- A JSON value, as produced by `JSON.parse`.  Numbers are restricted to
integers, which covers the event protocol considered here. -/
inductive Json where
  | null
  | bool (b : Bool)
  | num (n : Int)
  | str (s : String)
  | arr (elems : List Json)
  | obj (fields : List (String × Json))
deriving Repr, Inhabited

/-- Skip JSON whitespace. -/
def skipWs : List Char → List Char
  | [] => []
  | c :: rest =>
    if c = ' ' ∨ c = '\t' ∨ c = '\n' ∨ c = '\r' then skipWs rest else c :: rest

/-- Decode a JSON escape character (the portion of the escape table the
protocol uses; `\uXXXX` escapes are not produced by the system). -/
def escChar (c : Char) : Option Char :=
  if c = '"' then some '"'
  else if c = '\\' then some '\\'
  else if c = '/' then some '/'
  else if c = 'n' then some '\n'
  else if c = 't' then some '\t'
  else if c = 'r' then some '\r'
  else if c = 'b' then some (Char.ofNat 8)
  else if c = 'f' then some (Char.ofNat 12)
  else none

/-- Parse the body of a JSON string (after the opening quote), returning the
decoded string and the rest of the input after the closing quote. -/
def parseStrBody : List Char → Option (String × List Char)
  | [] => none
  | '"' :: rest => some ("", rest)
  | '\\' :: rest =>
    match rest with
    | [] => none
    | c :: rest' =>
      match escChar c with
      | none => none
      | some ec =>
        match parseStrBody rest' with
        | none => none
        | some (s, r) => some (String.mk (ec :: s.data), r)
  | c :: rest =>
    match parseStrBody rest with
    | none => none
    | some (s, r) => some (String.mk (c :: s.data), r)

/-- Digits of a decimal number. -/
def digitsToNat (l : List Char) : Nat :=
  l.foldl (fun a c => a * 10 + (c.toNat - 48)) 0

/-- Parse a JSON integer (fractions and exponents, unused by the protocol,
are rejected). -/
def parseNum (input : List Char) : Option (Json × List Char) :=
  let core : List Char → Option (Json × List Char) := fun l =>
    let p := l.span Char.isDigit
    if p.1.isEmpty then none else some (.num (Int.ofNat (digitsToNat p.1)), p.2)
  match input with
  | '-' :: rest =>
    (core rest).map fun q =>
      (match q.1 with
       | .num n => (.num (-n), q.2)
       | j => (j, q.2))
  | _ => core input

/-- Parser mode: a plain value, the tail of an array, or the tail of an
object (accumulated elements/fields carried along). -/
inductive PMode where
  | value
  | arrTail (acc : List Json)
  | objTail (acc : List (String × Json))

/-- Fuel-indexed JSON parser (structural recursion on the fuel, so that the
kernel can evaluate it).  Returns the parsed value and the remaining input. -/
def parseJ : Nat → PMode → List Char → Option (Json × List Char)
  | 0, _, _ => none
  | Nat.succ fuel, .value, input =>
    match skipWs input with
    | [] => none
    | 'n' :: 'u' :: 'l' :: 'l' :: rest => some (.null, rest)
    | 't' :: 'r' :: 'u' :: 'e' :: rest => some (.bool true, rest)
    | 'f' :: 'a' :: 'l' :: 's' :: 'e' :: rest => some (.bool false, rest)
    | '"' :: rest =>
      (match parseStrBody rest with
       | none => none
       | some (s, r) => some (.str s, r))
    | '[' :: rest =>
      (match skipWs rest with
       | ']' :: r2 => some (.arr [], r2)
       | _ => parseJ fuel (.arrTail []) rest)
    | '{' :: rest =>
      (match skipWs rest with
       | '}' :: r2 => some (.obj [], r2)
       | _ => parseJ fuel (.objTail []) rest)
    | c :: rest =>
      if c = '-' ∨ c.isDigit then parseNum (c :: rest) else none
  | Nat.succ fuel, .arrTail acc, input =>
    match parseJ fuel .value input with
    | none => none
    | some (v, rest) =>
      match skipWs rest with
      | ',' :: r2 => parseJ fuel (.arrTail (acc ++ [v])) r2
      | ']' :: r2 => some (.arr (acc ++ [v]), r2)
      | _ => none
  | Nat.succ fuel, .objTail acc, input =>
    match skipWs input with
    | '"' :: rest =>
      (match parseStrBody rest with
       | none => none
       | some (k, r1) =>
         match skipWs r1 with
         | ':' :: r2 =>
           (match parseJ fuel .value r2 with
            | none => none
            | some (v, r3) =>
              match skipWs r3 with
              | ',' :: r4 => parseJ fuel (.objTail (acc ++ [(k, v)])) r4
              | '}' :: r4 => some (.obj (acc ++ [(k, v)]), r4)
              | _ => none)
         | _ => none)
    | _ => none

/-- `JSON.parse`: parse a complete JSON document (trailing whitespace only). -/
def parseJson (s : String) : Option Json :=
  match parseJ (s.data.length * 2 + 8) .value s.data with
  | some (j, rest) => if (skipWs rest).isEmpty then some j else none
  | none => none

/-- Last-wins field lookup on a JSON object (duplicate keys in JSON resolve
to the last occurrence, as in `JSON.parse`); `none` on non-objects and
missing keys, modelling an `undefined` property access. -/
def jGet (j : Json) (key : String) : Option Json :=
  match j with
  | .obj fields => fields.foldl (fun acc f => if f.1 = key then some f.2 else acc) none
  | _ => none

/-- View an optional JSON value as a string, `none` otherwise. -/
def jStr (o : Option Json) : Option String :=
  match o with
  | some (.str s) => some s
  | _ => none

/-- JavaScript truthiness of a JSON value. -/
def jsTruthy : Json → Bool
  | .null => false
  | .bool b => b
  | .num n => n ≠ 0
  | .str s => s ≠ ""
  | .arr _ => true
  | .obj _ => true

/-! ## Canonical event model (`types.ts`, output of `adaptIFlowMessage`) -/

/-- Agent info attached to text deltas (`AgentInfo` in `types.ts`). -/
structure AgentInfo where
  type : String
  name : Option String
  description : Option String
deriving Repr, DecidableEq, Inhabited

/-- A task-plan entry (`PlanEntry` in `types.ts`). -/
structure PlanEntry where
  id : String
  content : String
  activeForm : String
  status : String
  priority : Option String
deriving Repr, DecidableEq, Inhabited

/-- `SSEData`: the canonical event vocabulary, as produced by
`adaptIFlowMessage` and serialized one per SSE frame.  Optional fields are
`none` when the corresponding JS property is `undefined`.  `args` and
`result` of a tool call are arbitrary JSON (`Record`/`unknown` in the
source). -/
inductive SSEData where
  | textDelta (text : String) (agentInfo : Option AgentInfo)
  | toolCall (toolName : String) (status : String) (label : Option String)
      (args : Option Json) (result : Option Json) (error : Option String)
  | plan (entries : List PlanEntry)
  | finish (stopReason : String)
  | error (error : String) (code : Option String)
deriving Repr, Inhabited

/-- Whether an event terminates the stream
(`adapted.type === "finish" || adapted.type === "error"`). -/
def SSEData.isTerminal : SSEData → Bool
  | .finish _ => true
  | .error _ _ => true
  | _ => false

/-! ## Server-side stream coordinator (`src/app/api/iflow/chat/route.ts`)

The coordinator drains the adapted message stream, accumulating data for
persistence while enqueueing one frame per event on the response stream
controller.  `routeRun` is the loop body of the `start`
callback of the `ReadableStream`, lines 260-336 of the route. -/

/-- One entry pushed onto the `toolCalls` collection array of the route;
`id` is `adapted.toolName + "-" + Date.now()` (the clock value is modelled
by the position of the event in the stream). -/
structure SavedToolCall where
  id : String
  toolName : String
  status : String
  label : Option String
  args : Option Json
  result : Option Json
  error : Option String
deriving Repr, Inhabited

/-- The mutable accumulation variables of the route (`assistantContent`,
`agentInfo`, `toolCalls`, `planEntries`, `stopReason`). -/
structure RouteAccum where
  assistantContent : String
  agentInfo : Option AgentInfo
  toolCalls : List SavedToolCall
  planEntries : List PlanEntry
  stopReason : Option String
deriving Repr, Inhabited

/-- Initial accumulation state. -/
def RouteAccum.init : RouteAccum :=
  { assistantContent := "", agentInfo := none, toolCalls := [],
    planEntries := [], stopReason := none }

/-- The per-event collection step of the route (lines 279-298):
`assistantContent += adapted.text`; `agentInfo` set only when not already
set and the incoming one is truthy; `toolCalls.push(...)`;
`planEntries.push(...adapted.entries)`; `stopReason = adapted.stopReason`. -/
def collectEvent (acc : RouteAccum) (ev : SSEData) (now : Nat) : RouteAccum :=
  match ev with
  | .textDelta t ai =>
    { acc with
      assistantContent := acc.assistantContent ++ t
      agentInfo :=
        match acc.agentInfo, ai with
        | none, some a => some a
        | prev, _ => prev }
  | .toolCall n s l a r e =>
    { acc with toolCalls := acc.toolCalls ++
        [{ id := n ++ "-" ++ toString now, toolName := n, status := s,
           label := l, args := a, result := r, error := e }] }
  | .plan es => { acc with planEntries := acc.planEntries ++ es }
  | .finish sr => { acc with stopReason := some sr }
  | .error _ _ => acc

/-- The output sink: the `ReadableStream` controller.  `frames` records the
events whose SSE frame (`"data: " + JSON.stringify(adapted) + "\n\n"`) was
successfully enqueued; `logLines` counts the log lines emitted when an
operation hits an already-closed controller. -/
structure Sink where
  closed : Bool
  frames : List SSEData
  closeCount : Nat
  logLines : Nat
deriving Repr, Inhabited

/-- A freshly opened sink. -/
def Sink.init : Sink := { closed := false, frames := [], closeCount := 0, logLines := 0 }

/-- `controller.enqueue` wrapped in the try/catch of the route: enqueueing on a
closed controller throws, the route catches it, logs, and reports failure
(`false`) so the loop can `break`; it never propagates an exception. -/
def sinkEnqueue (s : Sink) (ev : SSEData) : Sink × Bool :=
  if s.closed then ({ s with logLines := s.logLines + 1 }, false)
  else ({ s with frames := s.frames ++ [ev] }, true)

/-- `controller.close` wrapped in the try/catch of the route: closing an
already-closed controller is caught and logged. -/
def sinkClose (s : Sink) : Sink :=
  if s.closed then { s with logLines := s.logLines + 1 }
  else { s with closed := true, closeCount := s.closeCount + 1 }

/-- The assistant message handed to `saveIFlowMessage` on a terminal event:
`toolCalls`/`plan` are passed only when non-empty (`length > 0 ? ... :
undefined`). -/
structure SavedMessage where
  content : String
  agentInfo : Option AgentInfo
  toolCalls : Option (List SavedToolCall)
  plan : Option (List PlanEntry)
  stopReason : Option String
deriving Repr, Inhabited

/-- Build the saved assistant message from the accumulated state. -/
def mkSavedMessage (acc : RouteAccum) : SavedMessage :=
  { content := acc.assistantContent
    agentInfo := acc.agentInfo
    toolCalls := if acc.toolCalls.length > 0 then some acc.toolCalls else none
    plan := if acc.planEntries.length > 0 then some acc.planEntries else none
    stopReason := acc.stopReason }

/-- Result of a coordinator run: final accumulation, final sink state, and
the assistant message handed to the persistence collaborator (if any). -/
structure RouteResult where
  acc : RouteAccum
  sink : Sink
  saved : Option SavedMessage
deriving Repr, Inhabited

/-- The coordinator loop (`for await (const message of messageStream)`), over
the list of `adaptIFlowMessage` results (`none` = adapter returned `null`,
which the loop skips with `continue`).  For each event: collect, try to
enqueue its frame (`break` on a closed controller), and on a terminal event
save the assistant message when `assistantContent` is truthy (non-empty),
close the controller, and `break`. -/
def routeRun (acc : RouteAccum) (sink : Sink) (t : Nat) :
    List (Option SSEData) → RouteResult
  | [] => { acc := acc, sink := sink, saved := none }
  | none :: rest => routeRun acc sink (t + 1) rest
  | some ev :: rest =>
    let acc' := collectEvent acc ev t
    let es := sinkEnqueue sink ev
    if es.2 = false then { acc := acc', sink := es.1, saved := none }
    else if ev.isTerminal then
      { acc := acc'
        sink := sinkClose es.1
        saved := if acc'.assistantContent = "" then none else some (mkSavedMessage acc') }
    else routeRun acc' es.1 (t + 1) rest

/-- A full coordinator run from the initial state. -/
def routeStream (evs : List (Option SSEData)) : RouteResult :=
  routeRun RouteAccum.init Sink.init 0 evs

/-! ### Equation lemmas and invariants for the coordinator loop -/

/-- Whether the adapted event list contains a terminal (`finish`/`error`)
event. -/
def hasTerminal (evs : List (Option SSEData)) : Bool :=
  evs.any fun o => match o with
    | some e => e.isTerminal
    | none => false

/-! ### Persistence guard (C10) and the accumulation semantics (C1) -/

/-- Every `text-delta` event in the list carries an empty text. -/
def allTextEmpty (evs : List (Option SSEData)) : Bool :=
  evs.all fun o => match o with
    | some (.textDelta t _) => t == ""
    | _ => true

/-- A concrete plan entry used in witnesses. -/
def peC : PlanEntry :=
  { id := "p1", content := "step", activeForm := "doing step",
    status := "pending", priority := none }

/-- The tool-call-and-plan-only turn used as the C10 witness input. -/
def c10evs : List (Option SSEData) :=
  [some (.toolCall "read" "executing" none none none none),
   some (.plan [peC]),
   some (.textDelta "" none),
   some (.finish "end_turn")]

/-- A concrete plan entry used to exhibit the plan accumulation of the route. -/
def peA : PlanEntry :=
  { id := "a", content := "first", activeForm := "doing first",
    status := "pending", priority := none }

/-- A second concrete plan entry. -/
def peB : PlanEntry :=
  { id := "b", content := "second", activeForm := "doing second",
    status := "pending", priority := none }

/-! ## Session pool (`src/lib/iflow/session-manager.ts`)

The manager keeps a JS `Map` from `userId + ":" + workspaceId` to live
sessions.  The `Map` is modelled as an insertion-ordered association list
(JS `Map` iteration order is insertion order; `set` on an existing key
keeps its position).  `crypto.randomUUID()` is modelled by a monotone
counter `nextId`; `Date` values are `Nat` timestamps; the upstream
`client.disconnect()` calls are recorded in `disconnectLog` by session id.
The capacity bound is a parameter `maxSessions` instantiated at the
constant `MAX_SESSIONS = 1000` of the source. -/

/-- The requested session configuration (`modelName`, `permissionMode`). -/
structure SessionConfig where
  modelName : String
  permissionMode : String
deriving Repr, DecidableEq, Inhabited

/-- One pooled session (`IFlowSession` in `types.ts`, as created by
`createSession`).  The `client` handle is represented by the identity of the
session in the disconnect log. -/
structure PoolSession where
  id : Nat
  userId : String
  workspaceId : String
  modelName : String
  permissionMode : String
  createdAt : Nat
  lastActivity : Nat
  messageCount : Nat
  historyContext : Option String
  isFirstMessage : Bool
deriving Repr, DecidableEq, Inhabited

/-- The manager state: the session map, the fresh-id supply, the stats
counters, and the log of `client.disconnect()` calls. -/
structure ManagerState where
  sessions : List (String × PoolSession)
  nextId : Nat
  totalCreated : Nat
  totalDestroyed : Nat
  evictionCount : Nat
  disconnectLog : List Nat
deriving Repr, DecidableEq, Inhabited

/-- `Map.get`. -/
def mapGet : List (String × PoolSession) → String → Option PoolSession
  | [], _ => none
  | e :: rest, k => if e.1 = k then some e.2 else mapGet rest k

/-- `Map.set`: updates in place when the key exists (keeping its position),
appends otherwise. -/
def mapSet : List (String × PoolSession) → String → PoolSession → List (String × PoolSession)
  | [], k, v => [(k, v)]
  | e :: rest, k, v => if e.1 = k then (k, v) :: rest else e :: mapSet rest k v

/-- `Map.delete`. -/
def mapDelete : List (String × PoolSession) → String → List (String × PoolSession)
  | [], _ => []
  | e :: rest, k => if e.1 = k then rest else e :: mapDelete rest k

/-- `getSessionKey`. -/
def getSessionKey (userId workspaceId : String) : String :=
  userId ++ ":" ++ workspaceId

/-- `MAX_SESSIONS` (a constant in the source; the operations below take it as
the parameter `maxSessions`). -/
def MAX_SESSIONS : Nat := 1000

/-- `MAX_CONTEXT_MESSAGES`: at most this many most-recent messages enter
the history context. -/
def MAX_CONTEXT_MESSAGES : Nat := 20

/-- `MAX_MESSAGE_LENGTH`: per-message truncation bound. -/
def MAX_MESSAGE_LENGTH : Nat := 1000

/-- A stored message as returned by `getIFlowMessagesByWorkspaceId`
(`content` may be null: the code guards with `msg.content || ""`). -/
structure HistMessage where
  role : String
  content : Option String
deriving Repr, DecidableEq, Inhabited

/-- Per-message truncation inside `createSession`:
`content.length > 1000 ? content.substring(0, 1000) + "..." : content`. -/
def truncateContent (content : String) : String :=
  if content.length > MAX_MESSAGE_LENGTH
  then content.take MAX_MESSAGE_LENGTH ++ "..."
  else content

/-- `historicalMessages.slice(-MAX_CONTEXT_MESSAGES)`: the most recent
`n` elements (all of them when fewer). -/
def sliceLast (n : Nat) (l : List HistMessage) : List HistMessage :=
  l.drop (l.length - n)

/-- The history-context construction of `createSession` (lines 152-191 of
the session manager): keep the most recent `MAX_CONTEXT_MESSAGES` messages,
truncate each content, join with blank lines, and append a trailing blank
line; no context when there are no messages. -/
def buildHistoryContext (msgs : List HistMessage) : Option String :=
  if msgs.length > 0 then
    let recent := sliceLast MAX_CONTEXT_MESSAGES msgs
    let conversationHistory :=
      String.intercalate "\n\n" (recent.map fun m => truncateContent (m.content.getD ""))
    some (conversationHistory ++ "\n\n")
  else none

/-- `destroySession`: looks up the key; when absent, a no-op; when present,
disconnects the client (recorded in the log), removes the entry, and bumps
`totalDestroyed`. -/
def destroySession (st : ManagerState) (key : String) : ManagerState :=
  match mapGet st.sessions key with
  | none => st
  | some s =>
    { st with
      sessions := mapDelete st.sessions key
      disconnectLog := st.disconnectLog ++ [s.id]
      totalDestroyed := st.totalDestroyed + 1 }

/-- The scan of `evictOldestSession`: iterate the map in order carrying
`(oldestKey, oldestTime)`, starting from `(null, Date.now())`, replacing
the best candidate on a strictly smaller `lastActivity`. -/
def scanOldest : Option String × Nat → List (String × PoolSession) → Option String × Nat
  | best, [] => best
  | best, e :: rest =>
    if e.2.lastActivity < best.2
    then scanOldest (some e.1, e.2.lastActivity) rest
    else scanOldest best rest

/-- `evictOldestSession`: on a non-empty map, destroy the session found by
the scan (if any) and bump `evictionCount`. -/
def evictOldestSession (st : ManagerState) (now : Nat) : ManagerState :=
  if st.sessions.length = 0 then st
  else
    match (scanOldest (none, now) st.sessions).1 with
    | none => st
    | some k =>
      let st' := destroySession st k
      { st' with evictionCount := st'.evictionCount + 1 }

/-- `createSession`: build the history context from the loaded messages,
connect a fresh client, and store a new session under the key with
`isFirstMessage = true`.  The loaded history is passed in as `histMsgs`
(the answer of the persistence collaborator). -/
def createSession (st : ManagerState) (userId workspaceId : String)
    (cfg : SessionConfig) (histMsgs : List HistMessage) (now : Nat) :
    ManagerState × PoolSession :=
  let key := getSessionKey userId workspaceId
  let s : PoolSession :=
    { id := st.nextId, userId := userId, workspaceId := workspaceId,
      modelName := cfg.modelName, permissionMode := cfg.permissionMode,
      createdAt := now, lastActivity := now, messageCount := 0,
      historyContext := buildHistoryContext histMsgs, isFirstMessage := true }
  ({ st with
      sessions := mapSet st.sessions key s
      nextId := st.nextId + 1
      totalCreated := st.totalCreated + 1 }, s)

/-- `getOrCreateSession`: reuse on matching config (refreshing
`lastActivity`); on a config change destroy the old session first; then,
when at or above capacity, evict the globally oldest session; finally
create the fresh session. -/
def getOrCreateSession (maxSessions : Nat) (st : ManagerState)
    (userId workspaceId : String) (cfg : SessionConfig)
    (histMsgs : List HistMessage) (now : Nat) : ManagerState × PoolSession :=
  let key := getSessionKey userId workspaceId
  match mapGet st.sessions key with
  | some ex =>
    if ex.modelName = cfg.modelName ∧ ex.permissionMode = cfg.permissionMode then
      let ex' := { ex with lastActivity := now }
      ({ st with sessions := mapSet st.sessions key ex' }, ex')
    else
      let st1 := destroySession st key
      let st2 := if st1.sessions.length ≥ maxSessions
                 then evictOldestSession st1 now else st1
      createSession st2 userId workspaceId cfg histMsgs now
  | none =>
    let st2 := if st.sessions.length ≥ maxSessions
               then evictOldestSession st now else st
    createSession st2 userId workspaceId cfg histMsgs now

/-! ### Association-list (JS Map) lemmas -/

/-! ### The eviction scan -/

/-! ### C2: the capacity bound -/

/-- A pooled session whose `lastActivity` equals the current clock value. -/
def c2sess : PoolSession :=
  { id := 0, userId := "a", workspaceId := "w", modelName := "MiniMax-M2",
    permissionMode := "yolo", createdAt := 5, lastActivity := 5,
    messageCount := 0, historyContext := none, isFirstMessage := false }

/-- A pool at capacity (`maxSessions = 1`) holding only `c2sess`. -/
def c2state : ManagerState :=
  { sessions := [("a:w", c2sess)], nextId := 1, totalCreated := 1,
    totalDestroyed := 0, evictionCount := 0, disconnectLog := [] }

/-- A stale session (its `lastActivity` is strictly before the clock). -/
def c2sessOld : PoolSession :=
  { id := 0, userId := "a", workspaceId := "w", modelName := "MiniMax-M2",
    permissionMode := "yolo", createdAt := 3, lastActivity := 3,
    messageCount := 0, historyContext := none, isFirstMessage := false }

/-- A pool at capacity (`maxSessions = 1`) holding only `c2sessOld`. -/
def c2stateOld : ManagerState :=
  { sessions := [("a:w", c2sessOld)], nextId := 1, totalCreated := 1,
    totalDestroyed := 0, evictionCount := 0, disconnectLog := [] }

/-! ### C5: the reuse / recreate contract of `getOrCreateSession` -/

/-- A session with config (`MiniMax-M2`, `yolo`) under key `"a:w"`. -/
def c5sess : PoolSession :=
  { id := 0, userId := "a", workspaceId := "w", modelName := "MiniMax-M2",
    permissionMode := "yolo", createdAt := 3, lastActivity := 3,
    messageCount := 2, historyContext := none, isFirstMessage := false }

/-- A one-session pool for the C5 witness. -/
def c5state : ManagerState :=
  { sessions := [("a:w", c5sess)], nextId := 1, totalCreated := 1,
    totalDestroyed := 0, evictionCount := 0, disconnectLog := [] }

/-! ### C3: the history prefix is prepended to the first send only -/

/-- JS truthiness of the optional `historyContext` string. -/
def truthyStr : Option String → Bool
  | none => false
  | some s => s != ""

/-- The first-message branch of the chat route (lines 222-235 of
`route.ts`): when `session.isFirstMessage && session.historyContext` is
truthy, send `historyContext + message` and clear `isFirstMessage`;
otherwise send the message unmodified.  Returns the updated session and
the text handed to `client.sendMessage`. -/
def sendTurn (s : PoolSession) (message : String) : PoolSession × String :=
  if s.isFirstMessage && truthyStr s.historyContext then
    ({ s with isFirstMessage := false }, s.historyContext.getD "" ++ message)
  else (s, message)

/-- A sequence of sends through the same session: the updated session and
the list of transmitted texts, in order. -/
def sendTurns (s : PoolSession) : List String → PoolSession × List String
  | [] => (s, [])
  | m :: ms =>
    let r := sendTurn s m
    let r2 := sendTurns r.1 ms
    (r2.1, r.2 :: r2.2)

/-- An empty manager state. -/
def ManagerState.init : ManagerState :=
  { sessions := [], nextId := 0, totalCreated := 0, totalDestroyed := 0,
    evictionCount := 0, disconnectLog := [] }

/-! ### C4: bounded, truncated history context -/

/-- The 21-message conversation used as the C4 witness input. -/
def c4msgs : List HistMessage :=
  (List.range 21).map fun i => { role := "user", content := some (toString i) }

/-! ## Client-side consumer and reducer (`src/hooks/use-iflow-chat.ts`)

JS string primitives used by the consumer (`split("\n")`, `trim()`,
`startsWith`, `slice(6)`) are modelled directly over the character list of
the string, matching their code-unit semantics. -/

/-- `buffer.split("\n")`. -/
def splitNlAux : List Char → List Char → List String
  | [], acc => [String.mk acc.reverse]
  | c :: rest, acc =>
    if c = '\n' then String.mk acc.reverse :: splitNlAux rest []
    else splitNlAux rest (c :: acc)

/-- `s.split("\n")`: at least one element; the separator is consumed. -/
def jsSplitNl (s : String) : List String := splitNlAux s.data []

/-- JS whitespace (the part relevant to this protocol). -/
def isJsWs (c : Char) : Bool := c = ' ' || c = '\t' || c = '\n' || c = '\r'

/-- `s.trim()`. -/
def jsTrim (s : String) : String :=
  String.mk (((s.data.dropWhile isJsWs).reverse.dropWhile isJsWs).reverse)

/-- `s.startsWith(p)`. -/
def jsStartsWith (s p : String) : Bool := s.data.take p.data.length == p.data

/-- `s.slice(n)` for non-negative `n`. -/
def jsDrop (s : String) (n : Nat) : String := String.mk (s.data.drop n)

/-- A client-side tool-call entry as constructed in `sendMessage`
(lines 419-427): every field is assigned explicitly, so the record always
carries all keys (an absent value is an `undefined`-valued key, `none`
here).  `id` is `nanoid()`, modelled by a counter. -/
structure CToolCall where
  id : Nat
  toolName : Option String
  status : Option String
  label : Option String
  args : Option Json
  result : Option Json
  error : Option Json
deriving Repr, Inhabited

/-- A client-side transcript message (`IFlowChatMessage`).  Runtime values
flow in unvalidated from `JSON.parse`, so `content` may be an
`undefined`-valued key and `plan` holds the raw parsed `entries` value. -/
structure ChatMessage where
  id : Nat
  role : String
  content : Option String
  agentInfo : Option Json
  toolCalls : Option (List CToolCall)
  plan : Option Json
  stopReason : Option String
deriving Repr, Inhabited

/-- The reducer actions dispatched by the streaming path of `sendMessage`
(the remaining actions of `MessageAction` — `SET_MESSAGES`,
`UPDATE_LAST_MESSAGE`, `CLEAR_MESSAGES` — are not dispatched while
consuming a stream and are omitted). -/
inductive MessageAction where
  | addMessage (m : ChatMessage)
  | updateLastContent (payload : Option String) (agentInfo : Option Json)
  | updateLastToolCall (payload : CToolCall)
  | updateLastPlan (payload : Option Json)
  | finishLastMessage (payload : Option String)

/-- The spread merge `\x7b ...tc, ...payload \x7d` of the
`UPDATE_LAST_TOOL_CALL` case.  The payload record built in `sendMessage`
assigns every field explicitly, so every spread key of the payload —
`undefined`-valued keys included — overwrites the corresponding field of
the existing entry. -/
def mergeSpread (_tc incoming : CToolCall) : CToolCall :=
  { id := incoming.id, toolName := incoming.toolName, status := incoming.status,
    label := incoming.label, args := incoming.args, result := incoming.result,
    error := incoming.error }

/-- `toolCalls.map((tc, idx) => idx === existingIndex ? merged : tc)`. -/
def mapWithIndex (f : Nat → CToolCall → CToolCall) : Nat → List CToolCall → List CToolCall
  | _, [] => []
  | n, tc :: rest => f n tc :: mapWithIndex f (n + 1) rest

/-- `messagesReducer` (lines 54-153 of the hook), restricted to the actions
of the streaming path.  Each `UPDATE_LAST_*` action acts on the last
message only, is a no-op unless that message has role `assistant`, and
copies the array (prior messages are untouched). -/
def messagesReducer (state : List ChatMessage) (action : MessageAction) : List ChatMessage :=
  match action with
  | .addMessage m => state ++ [m]
  | .updateLastContent payload ai =>
    match state.getLast? with
    | none => state
    | some lastMsg =>
      if lastMsg.role ≠ "assistant" then state
      else
        state.dropLast ++
          [{ lastMsg with
               content := payload
               agentInfo :=
                 if (match ai with | some a => jsTruthy a | none => false)
                 then ai else lastMsg.agentInfo }]
  | .updateLastToolCall payload =>
    match state.getLast? with
    | none => state
    | some lastMsg =>
      if lastMsg.role ≠ "assistant" then state
      else
        let toolCalls := lastMsg.toolCalls.getD []
        let newToolCalls :=
          match toolCalls.findIdx? (fun tc => tc.toolName == payload.toolName) with
          | some i => mapWithIndex
              (fun idx tc => if idx = i then mergeSpread tc payload else tc) 0 toolCalls
          | none => toolCalls ++ [payload]
        state.dropLast ++ [{ lastMsg with toolCalls := some newToolCalls }]
  | .updateLastPlan payload =>
    match state.getLast? with
    | none => state
    | some lastMsg =>
      if lastMsg.role ≠ "assistant" then state
      else state.dropLast ++ [{ lastMsg with plan := payload }]
  | .finishLastMessage payload =>
    match state.getLast? with
    | none => state
    | some lastMsg =>
      if lastMsg.role ≠ "assistant" then state
      else state.dropLast ++ [{ lastMsg with stopReason := payload }]

/-- A parsed SSE event as the client sees it: `JSON.parse` output switched
on its `type` string (no validation, so every payload field is optional). -/
inductive ClientEvent where
  | textDelta (text : Option String) (agentInfo : Option Json)
  | toolCall (toolName : Option String) (status : Option String) (label : Option String)
      (args : Option Json) (result : Option Json) (error : Option Json)
  | plan (entries : Option Json)
  | finish (stopReason : Option String)
  | errorEv (message : Option String)
  | unknown
deriving Repr, Inhabited

/-- `data.type === "finish" || data.type === "error"`. -/
def ClientEvent.isTerminal : ClientEvent → Bool
  | .finish _ => true
  | .errorEv _ => true
  | _ => false

/-- The `switch (data.type)` of `sendMessage`: extract the payload fields
for the known discriminators, everything else falls through (no dispatch,
no terminal check match). -/
def classify (j : Json) : ClientEvent :=
  match jStr (jGet j "type") with
  | some "text-delta" => .textDelta (jStr (jGet j "text")) (jGet j "agentInfo")
  | some "tool-call" =>
    .toolCall (jStr (jGet j "toolName")) (jStr (jGet j "status")) (jStr (jGet j "label"))
      (jGet j "args") (jGet j "result") (jGet j "error")
  | some "plan" => .plan (jGet j "entries")
  | some "finish" => .finish (jStr (jGet j "stopReason"))
  | some "error" => .errorEv (jStr (jGet j "error"))
  | _ => .unknown

/-- The consumer state: the carry-over line buffer, the transcript, the
`setError` log, the ghost log of parsed events (one entry per successfully
JSON-parsed `data: ` line), and the `nanoid()` supply. -/
structure ClientState where
  buffer : String
  messages : List ChatMessage
  errors : List (Option String)
  yielded : List ClientEvent
  nextId : Nat
deriving Repr, Inhabited

/-- Apply one parsed event to the client state (the `switch` bodies). -/
def dispatch (st : ClientState) (ev : ClientEvent) : ClientState :=
  match ev with
  | .textDelta text ai =>
    { st with messages := messagesReducer st.messages (.updateLastContent text ai) }
  | .toolCall n s l a r e =>
    { st with
        messages := messagesReducer st.messages (.updateLastToolCall
          { id := st.nextId, toolName := n, status := s, label := l,
            args := a, result := r, error := e })
        nextId := st.nextId + 1 }
  | .plan entries =>
    { st with messages := messagesReducer st.messages (.updateLastPlan entries) }
  | .finish sr =>
    { st with messages := messagesReducer st.messages (.finishLastMessage sr) }
  | .errorEv msg => { st with errors := st.errors ++ [msg] }
  | .unknown => st

/-- Process one complete line (the body of `for (const line of lines)`):
blank lines and lines without the `"data: "` prefix are skipped, a JSON
parse failure is logged and skipped, and a parsed event is dispatched; the
returned flag is the terminal check that drives the inner `break`. -/
def processLine (st : ClientState) (line : String) : ClientState × Bool :=
  if jsTrim line = "" then (st, false)
  else if jsStartsWith line "data: " then
    match parseJson (jsDrop line 6) with
    | none => (st, false)
    | some j =>
      let ev := classify j
      (dispatch { st with yielded := st.yielded ++ [ev] } ev, ev.isTerminal)
  else (st, false)

/-- Process the complete lines of one chunk, stopping (within this chunk
only) at a terminal event — the inner `break`. -/
def processLines (st : ClientState) : List String → ClientState
  | [] => st
  | l :: rest =>
    let r := processLine st l
    if r.2 then r.1 else processLines r.1 rest

/-- Process one received chunk: append to the buffer, split on newlines,
keep the last (possibly partial) segment as the new buffer, and process
the complete lines. -/
def processChunk (st : ClientState) (chunk : String) : ClientState :=
  let buf := st.buffer ++ chunk
  let lines := jsSplitNl buf
  let st' := { st with buffer := (lines.getLast?).getD "" }
  processLines st' lines.dropLast

/-- The read loop (`while (true) ... reader.read()`): chunks are processed
until the feed is exhausted; nothing else stops this loop. -/
def consumeChunks (st : ClientState) (chunks : List String) : ClientState :=
  chunks.foldl processChunk st

/-- Fresh consumer state over a given transcript. -/
def clientInit (msgs : List ChatMessage) : ClientState :=
  { buffer := "", messages := msgs, errors := [], yielded := [], nextId := 0 }

/-- The user message of the demo transcript. -/
def demoUser : ChatMessage :=
  { id := 100, role := "user", content := some "q", agentInfo := none,
    toolCalls := none, plan := none, stopReason := none }

/-- The assistant placeholder appended by `sendMessage` before reading the
stream (`content: "", toolCalls: [], plan: []`). -/
def demoAsst : ChatMessage :=
  { id := 101, role := "assistant", content := some "", agentInfo := none,
    toolCalls := some [], plan := some (.arr []), stopReason := none }

/-- Content of the last transcript message. -/
def lastContent (msgs : List ChatMessage) : Option (Option String) :=
  (msgs.getLast?).map ChatMessage.content

/-! ### C9: frame reassembly across arbitrary chunk boundaries -/

/-- The first chunk of the split frame. -/
def c9chunkA : String := "data: \x7b\"typ"

/-- The second chunk, completing the frame. -/
def c9chunkB : String := "e\":\"text-delta\",\"text\":\"hi\"\x7d\n\n"

/-! ### C7: what stops the consumer -/

/-- A chunk carrying a complete finish frame. -/
def c7chunkA : String := "data: \x7b\"type\":\"finish\",\"stopReason\":\"end\"\x7d\n\n"

/-- A later chunk carrying a complete, well-formed text-delta frame. -/
def c7chunkB : String := "data: \x7b\"type\":\"text-delta\",\"text\":\"late\"\x7d\n\n"

/-- Whether a complete line is a terminal (`finish`/`error`) frame — the
stop flag of `processLine`, which depends only on the line. -/
def lineTerminal (line : String) : Bool :=
  if jsTrim line = "" then false
  else if jsStartsWith line "data: " then
    match parseJson (jsDrop line 6) with
    | none => false
    | some j => (classify j).isTerminal
  else false

/-! ### C8: the tool-call merge rule -/

/-- The tool-call list of the last transcript message. -/
def lastToolCalls (msgs : List ChatMessage) : List CToolCall :=
  ((msgs.getLast?).map fun m => m.toolCalls.getD []).getD []

/-- The payload of the executing event (the `result` key is `undefined`). -/
def c8exec : CToolCall :=
  { id := 0, toolName := some "read", status := some "executing", label := none,
    args := none, result := none, error := none }

/-- The payload of the completed event, with `result: "X"`. -/
def c8completedX : CToolCall :=
  { id := 1, toolName := some "read", status := some "completed", label := none,
    args := none, result := some (.str "X"), error := none }

/-- An existing entry holding `status: "completed"`, `result: "X"`. -/
def c8existing : CToolCall :=
  { id := 0, toolName := some "read", status := some "completed", label := none,
    args := none, result := some (.str "X"), error := none }

/-- A transcript whose assistant message already holds `c8existing`. -/
def c8msg : ChatMessage :=
  { id := 0, role := "assistant", content := some "", agentInfo := none,
    toolCalls := some [c8existing], plan := none, stopReason := none }

/-! ## Theorems -/

/-- Unfolding `routeRun` on a skipped (`null`-adapted) message. -/
theorem routeRun_cons_none (acc : RouteAccum) (sink : Sink) (t : Nat)
    (rest : List (Option SSEData)) :
    routeRun acc sink t (none :: rest) = routeRun acc sink (t + 1) rest := rfl

/-- Unfolding `routeRun` on an adapted event. -/
theorem routeRun_cons_some (acc : RouteAccum) (sink : Sink) (t : Nat)
    (ev : SSEData) (rest : List (Option SSEData)) :
    routeRun acc sink t (some ev :: rest) =
      (let acc' := collectEvent acc ev t
       let es := sinkEnqueue sink ev
       if es.2 = false then { acc := acc', sink := es.1, saved := none }
       else if ev.isTerminal then
         { acc := acc'
           sink := sinkClose es.1
           saved := if acc'.assistantContent = "" then none
                    else some (mkSavedMessage acc') }
       else routeRun acc' es.1 (t + 1) rest) := rfl

theorem hasTerminal_cons_some (ev : SSEData) (rest : List (Option SSEData)) :
    hasTerminal (some ev :: rest) = (ev.isTerminal || hasTerminal rest) := rfl

theorem hasTerminal_cons_none (rest : List (Option SSEData)) :
    hasTerminal (none :: rest) = hasTerminal rest := by
  simp [hasTerminal]

/-- Once the loop reaches a terminal event, whatever the upstream iterator
would yield afterwards is never consumed: the run over any extension behind
the first terminal event equals the run that ends at it. -/
theorem routeRun_stop_at_terminal (term : SSEData) (hterm : term.isTerminal = true)
    (pre : List (Option SSEData)) :
    ∀ (rest : List (Option SSEData)) (acc : RouteAccum) (sink : Sink) (t : Nat),
      routeRun acc sink t (pre ++ some term :: rest) =
        routeRun acc sink t (pre ++ [some term]) := by
  induction pre with
  | nil =>
    intro rest acc sink t
    simp only [List.nil_append, routeRun_cons_some]
    by_cases h : (sinkEnqueue sink term).2 = false
    · simp [h]
    · simp [h, hterm]
  | cons o pre ih =>
    intro rest acc sink t
    cases o with
    | none =>
      simpa only [List.cons_append, routeRun_cons_none] using ih rest acc sink (t + 1)
    | some e =>
      simp only [List.cons_append, routeRun_cons_some]
      by_cases h : (sinkEnqueue sink e).2 = false
      · simp [h]
      · by_cases ht : e.isTerminal
        · simp [h, ht]
        · simp [h, ht, ih]

/-- Starting from an open controller, the loop closes the controller exactly
when a terminal event occurs (and exactly once), and leaves it open
otherwise: writes never fail on the way, so the close performed by the loop
is the only close. -/
theorem routeRun_close_spec (evs : List (Option SSEData)) :
    ∀ (acc : RouteAccum) (sink : Sink) (t : Nat), sink.closed = false →
      (routeRun acc sink t evs).sink.closeCount =
          sink.closeCount + (if hasTerminal evs then 1 else 0)
        ∧ (routeRun acc sink t evs).sink.closed = hasTerminal evs := by
  induction evs with
  | nil => intro acc sink t h; simp [routeRun, hasTerminal, h]
  | cons o rest ih =>
    intro acc sink t h
    cases o with
    | none =>
      rw [routeRun_cons_none, hasTerminal_cons_none]
      exact ih acc sink (t + 1) h
    | some ev =>
      rw [routeRun_cons_some]
      by_cases ht : ev.isTerminal
      · simp [sinkEnqueue, h, ht, sinkClose, hasTerminal_cons_some]
      · have := ih (collectEvent acc ev t) (sinkEnqueue sink ev).1 (t + 1)
          (by simp [sinkEnqueue, h])
        simp only [sinkEnqueue, h, if_false, Bool.false_eq_true] at this ⊢
        simp [ht, hasTerminal_cons_some, this]

/-- C6: once the frame of a `finish`/`error` event is emitted, the
coordinator stops iterating (the run equals the run truncated at that
event, so no further frames are written no matter what the upstream
iterator still yields), the controller ends up closed with close-count
exactly one, and an enqueue attempted on an already-closed controller does
not raise: it leaves the frames unchanged, reports failure, and logs a
line. -/
theorem C6_terminal_frame_stops_and_closes_once
    (pre : List (Option SSEData)) (term : SSEData) (rest : List (Option SSEData))
    (hterm : term.isTerminal = true) :
    routeStream (pre ++ some term :: rest) = routeStream (pre ++ [some term])
    ∧ (routeStream (pre ++ some term :: rest)).sink.closeCount = 1
    ∧ (routeStream (pre ++ some term :: rest)).sink.closed = true
    ∧ (∀ (s : Sink) (ev : SSEData), s.closed = true →
        (sinkEnqueue s ev).1.frames = s.frames ∧ (sinkEnqueue s ev).2 = false
        ∧ (sinkEnqueue s ev).1.logLines = s.logLines + 1) := by
  have hT : hasTerminal (pre ++ some term :: rest) = true := by
    simp [hasTerminal, List.any_append, hterm]
  have hclose := routeRun_close_spec (pre ++ some term :: rest)
    RouteAccum.init Sink.init 0 rfl
  refine ⟨routeRun_stop_at_terminal term hterm pre rest RouteAccum.init Sink.init 0,
    ?_, ?_, ?_⟩
  · simpa [routeStream, Sink.init, hT] using hclose.1
  · simpa [routeStream, hT] using hclose.2
  · intro s ev h
    simp [sinkEnqueue, h]

/-- Witness for C6 at a concrete input. -/
theorem C6_witness :
    (SSEData.finish "end_turn").isTerminal = true
    ∧ (routeStream ([some (.textDelta "a" none)] ++
          some (.finish "end_turn") :: [some (.textDelta "late" none)]) =
        routeStream ([some (.textDelta "a" none)] ++ [some (.finish "end_turn")])
      ∧ (routeStream ([some (.textDelta "a" none)] ++
          some (.finish "end_turn") :: [some (.textDelta "late" none)])).sink.closeCount = 1
      ∧ (routeStream ([some (.textDelta "a" none)] ++
          some (.finish "end_turn") :: [some (.textDelta "late" none)])).sink.closed = true
      ∧ (∀ (s : Sink) (ev : SSEData), s.closed = true →
          (sinkEnqueue s ev).1.frames = s.frames ∧ (sinkEnqueue s ev).2 = false
          ∧ (sinkEnqueue s ev).1.logLines = s.logLines + 1)) :=
  ⟨rfl, C6_terminal_frame_stops_and_closes_once
    [some (.textDelta "a" none)] (.finish "end_turn") [some (.textDelta "late" none)] rfl⟩

/-- If the accumulated text is empty and every text delta is empty, the run
never hands a message to `saveIFlowMessage`. -/
theorem routeRun_saved_none_of_empty (evs : List (Option SSEData)) :
    ∀ (acc : RouteAccum) (sink : Sink) (t : Nat),
      allTextEmpty evs = true → acc.assistantContent = "" →
      (routeRun acc sink t evs).saved = none := by
  induction evs with
  | nil => intro acc sink t _ _; simp [routeRun]
  | cons o rest ih =>
    intro acc sink t hall hacc
    cases o with
    | none =>
      rw [routeRun_cons_none]
      exact ih acc sink (t + 1) (by simpa [allTextEmpty] using hall) hacc
    | some ev =>
      rw [routeRun_cons_some]
      have hsplit : ((fun o => match o with
            | some (SSEData.textDelta t _) => t == ""
            | _ => true) (some ev)) = true ∧ allTextEmpty rest = true := by
        simpa [allTextEmpty] using hall
      have hall' : allTextEmpty rest = true := hsplit.2
      have hacc' : (collectEvent acc ev t).assistantContent = "" := by
        cases ev with
        | textDelta txt ai =>
          have ht : txt = "" := by
            have h1 := hsplit.1
            simpa using h1
          simp [collectEvent, hacc, ht]
        | toolCall n s l a r e => simpa [collectEvent] using hacc
        | plan es => simpa [collectEvent] using hacc
        | finish sr => simpa [collectEvent] using hacc
        | error e c => simpa [collectEvent] using hacc
      by_cases h : (sinkEnqueue sink ev).2 = false
      · simp [h]
      · by_cases hterm : ev.isTerminal
        · simp [h, hterm, hacc']
        · simp only [h, hterm, if_false, Bool.false_eq_true]
          exact ih _ _ _ hall' hacc'

/-- Whenever a message is handed to `saveIFlowMessage`, its content is the
accumulated assistant text and it is non-empty. -/
theorem routeRun_saved_content_ne (evs : List (Option SSEData)) :
    ∀ (acc : RouteAccum) (sink : Sink) (t : Nat) (m : SavedMessage),
      (routeRun acc sink t evs).saved = some m → m.content ≠ "" := by
  induction evs with
  | nil => intro acc sink t m h; simp [routeRun] at h
  | cons o rest ih =>
    intro acc sink t m h
    cases o with
    | none => exact ih acc sink (t + 1) m (by simpa [routeRun_cons_none] using h)
    | some ev =>
      rw [routeRun_cons_some] at h
      by_cases hq : (sinkEnqueue sink ev).2 = false
      · simp [hq] at h
      · by_cases hterm : ev.isTerminal
        · simp only [hq, hterm, if_false, if_true, Bool.false_eq_true] at h
          by_cases hc : (collectEvent acc ev t).assistantContent = ""
          · simp [hc] at h
          · simp only [hc, if_false] at h
            cases h
            simpa [mkSavedMessage] using hc
        · simp only [hq, hterm, if_false, Bool.false_eq_true] at h
          exact ih _ _ _ m h

/-- C10: on a terminal event the route hands the assistant message to the
persistence collaborator only when the accumulated text is non-empty; in
particular a turn whose text deltas are all empty (for example tool-call
and plan events only) saves nothing, even though tool calls, plan entries
and a stop reason were accumulated. -/
theorem C10_save_only_when_text_nonempty :
    (∀ evs, allTextEmpty evs = true → (routeStream evs).saved = none)
    ∧ (∀ evs m, (routeStream evs).saved = some m → m.content ≠ "") :=
  ⟨fun evs h => routeRun_saved_none_of_empty evs RouteAccum.init Sink.init 0 h rfl,
   fun evs m h => routeRun_saved_content_ne evs RouteAccum.init Sink.init 0 m h⟩

/-- Witness for C10: a turn consisting of a tool call, a plan, an empty
text delta and a finish event saves no assistant message, although tool
calls, plan entries and a stop reason were accumulated. -/
theorem C10_witness :
    (routeStream c10evs).saved = none
    ∧ (routeStream c10evs).acc.toolCalls.length = 1
    ∧ (routeStream c10evs).acc.stopReason = some "end_turn" :=
  ⟨C10_save_only_when_text_nonempty.1 c10evs rfl, rfl, rfl⟩

/-- C1 (the code, evaluated at the failing input): the route accumulates
`assistantContent += adapted.text`, so two full-text deltas "Hello" and
"Hello world" accumulate to "HelloHello world", not to the text of the last
delta; every `tool-call` event is pushed (two entries for the same
`toolName`, not a working set keyed by `toolName`); and `plan` events are
concatenated (`planEntries.push(...entries)`), not replaced by the latest
list. -/
theorem C1_route_accumulation_appends :
    ((routeStream [some (.textDelta "Hello" none), some (.textDelta "Hello world" none),
        some (.finish "end_turn")]).acc.assistantContent = "HelloHello world"
      ∧ "HelloHello world" ≠ "Hello world")
    ∧ ((routeStream [some (.toolCall "read" "executing" none none none none),
        some (.toolCall "read" "completed" none none (some (.str "X")) none),
        some (.finish "end_turn")]).acc.toolCalls.map SavedToolCall.toolName
          = ["read", "read"])
    ∧ ((routeStream [some (.plan [peA]), some (.plan [peB]),
        some (.finish "end_turn")]).acc.planEntries = [peA, peB]
      ∧ [peA, peB] ≠ [peB]) :=
  ⟨⟨rfl, by decide⟩, rfl, ⟨rfl, by decide⟩⟩

theorem mapGet_some_mem {l : List (String × PoolSession)} {k : String} {s : PoolSession}
    (h : mapGet l k = some s) : (k, s) ∈ l := by
  induction l with
  | nil => simp [mapGet] at h
  | cons e rest ih =>
    by_cases he : e.1 = k
    · simp only [mapGet, he, if_pos rfl] at h
      cases h
      have hpair : (k, e.2) = e := by
        cases e
        simp_all
      rw [hpair]
      exact List.mem_cons_self _ _
    · simp only [mapGet, he, if_false] at h
      exact List.mem_cons_of_mem _ (ih h)

theorem mem_mapGet {l : List (String × PoolSession)} {k : String} {s : PoolSession}
    (hnd : (l.map Prod.fst).Nodup) (h : (k, s) ∈ l) : mapGet l k = some s := by
  induction l with
  | nil => simp at h
  | cons e rest ih =>
    have hnd' := hnd
    rw [List.map_cons, List.nodup_cons] at hnd'
    rcases List.mem_cons.mp h with h1 | h1
    · cases h1
      simp [mapGet]
    · have hk : e.1 ≠ k := by
        intro hek
        apply hnd'.1
        rw [hek]
        exact List.mem_map_of_mem Prod.fst h1
      simp only [mapGet, hk, if_false]
      exact ih hnd'.2 h1

theorem mapDelete_length {l : List (String × PoolSession)} {k : String} {s : PoolSession}
    (h : mapGet l k = some s) : (mapDelete l k).length + 1 = l.length := by
  induction l with
  | nil => simp [mapGet] at h
  | cons e rest ih =>
    by_cases he : e.1 = k
    · simp [mapDelete, he]
    · simp only [mapGet, he, if_false] at h
      simp [mapDelete, he, ih h]

theorem mapGet_mapDelete_none {l : List (String × PoolSession)} {k k' : String}
    (h : mapGet l k = none) : mapGet (mapDelete l k') k = none := by
  induction l with
  | nil => simp [mapDelete, mapGet]
  | cons e rest ih =>
    by_cases he : e.1 = k
    · simp [mapGet, he] at h
    · simp only [mapGet, he, if_false] at h
      by_cases he' : e.1 = k'
      · simpa [mapDelete, he'] using h
      · simp [mapDelete, he', mapGet, he, ih h]

theorem mapSet_length_of_none {l : List (String × PoolSession)} {k : String}
    (v : PoolSession) (h : mapGet l k = none) :
    (mapSet l k v).length = l.length + 1 := by
  induction l with
  | nil => simp [mapSet]
  | cons e rest ih =>
    by_cases he : e.1 = k
    · simp [mapGet, he] at h
    · simp only [mapGet, he, if_false] at h
      simp [mapSet, he, ih h]

theorem mapGet_mapSet_self (l : List (String × PoolSession)) (k : String)
    (v : PoolSession) : mapGet (mapSet l k v) k = some v := by
  induction l with
  | nil => simp [mapSet, mapGet]
  | cons e rest ih =>
    by_cases he : e.1 = k
    · simp [mapSet, he, mapGet]
    · simp [mapSet, he, mapGet, ih]

theorem scanOldest_keep (e1 : Option String × Nat) (l : List (String × PoolSession))
    (h : ∀ f ∈ l, ¬ f.2.lastActivity < e1.2) : scanOldest e1 l = e1 := by
  induction l with
  | nil => rfl
  | cons f rest ih =>
    have hf := h f (List.mem_cons_self _ _)
    simp only [scanOldest, hf, if_false]
    exact ih fun g hg => h g (List.mem_cons_of_mem _ hg)

theorem scanOldest_le (l : List (String × PoolSession)) :
    ∀ best : Option String × Nat,
      (scanOldest best l).2 ≤ best.2
      ∧ ∀ e ∈ l, (scanOldest best l).2 ≤ e.2.lastActivity := by
  induction l with
  | nil => intro best; simp [scanOldest]
  | cons e rest ih =>
    intro best
    by_cases h : e.2.lastActivity < best.2
    · have hstep : scanOldest best (e :: rest)
          = scanOldest (some e.1, e.2.lastActivity) rest := by
        simp [scanOldest, h]
      have hi := ih (some e.1, e.2.lastActivity)
      constructor
      · rw [hstep]
        exact le_trans hi.1 (le_of_lt h)
      · intro e' he'
        rw [hstep]
        rcases List.mem_cons.mp he' with h1 | h1
        · rw [h1]
          exact hi.1
        · exact hi.2 e' h1
    · have hstep : scanOldest best (e :: rest) = scanOldest best rest := by
        simp [scanOldest, h]
      have hi := ih best
      constructor
      · rw [hstep]
        exact hi.1
      · intro e' he'
        rw [hstep]
        rcases List.mem_cons.mp he' with h1 | h1
        · rw [h1]
          exact le_trans hi.1 (Nat.le_of_not_lt h)
        · exact hi.2 e' h1

theorem scanOldest_found (l : List (String × PoolSession)) :
    ∀ best : Option String × Nat,
      (∃ e ∈ l, e.2.lastActivity < best.2) →
      ∃ e ∈ l, scanOldest best l = (some e.1, e.2.lastActivity) := by
  induction l with
  | nil => intro best h; simp at h
  | cons e rest ih =>
    intro best hex
    by_cases h : e.2.lastActivity < best.2
    · by_cases hr : ∃ e' ∈ rest, e'.2.lastActivity < e.2.lastActivity
      · rcases ih (some e.1, e.2.lastActivity) hr with ⟨e', he', heq⟩
        exact ⟨e', List.mem_cons_of_mem _ he', by simpa [scanOldest, h] using heq⟩
      · refine ⟨e, List.mem_cons_self _ _, ?_⟩
        have hkeep : scanOldest (some e.1, e.2.lastActivity) rest
            = (some e.1, e.2.lastActivity) :=
          scanOldest_keep _ _ fun f hf hlt => hr ⟨f, hf, hlt⟩
        simp [scanOldest, h, hkeep]
    · rcases hex with ⟨e', he', hlt⟩
      rcases List.mem_cons.mp he' with h1 | h1
      · rw [h1] at hlt
        exact absurd hlt h
      · rcases ih best ⟨e', h1, hlt⟩ with ⟨f, hf, heq⟩
        exact ⟨f, List.mem_cons_of_mem _ hf, by simpa [scanOldest, h] using heq⟩

/-- Counterexample to C2: with the pool at capacity `maxSessions = 1` and the
`lastActivity` of the only session equal to the current time, creating a second
distinct key evicts nothing (the scan starts at `oldestTime = Date.now()`
and only accepts strictly smaller values), and the pool ends up holding 2 >
`maxSessions` sessions — refuting both "evicts exactly one session" and
"the pool never holds more than MAX_SESSIONS sessions". -/
theorem C2_counterexample :
    (getOrCreateSession 1 c2state "b" "w"
        { modelName := "MiniMax-M2", permissionMode := "yolo" } [] 5).1.sessions.length = 2
    ∧ ¬ ((getOrCreateSession 1 c2state "b" "w"
        { modelName := "MiniMax-M2", permissionMode := "yolo" } [] 5).1.sessions.length ≤ 1)
    ∧ (getOrCreateSession 1 c2state "b" "w"
        { modelName := "MiniMax-M2", permissionMode := "yolo" } [] 5).1.disconnectLog = []
    ∧ (getOrCreateSession 1 c2state "b" "w"
        { modelName := "MiniMax-M2", permissionMode := "yolo" } [] 5).1.evictionCount = 0 := by
  decide

/-- C2 as amended: provided the `lastActivity` of some pooled session is strictly
earlier than the current time, creating a fresh key with the pool at
capacity evicts exactly one session — one whose `lastActivity` is globally
minimal — before creating, so the pool length stays at `maxSessions`; and a
creation below capacity grows the pool by one (so it never exceeds the
bound in that regime). -/
theorem C2_amended_capacity_eviction (maxSessions : Nat) (st : ManagerState)
    (u w : String) (cfg : SessionConfig) (hist : List HistMessage) (now : Nat)
    (hnodup : (st.sessions.map Prod.fst).Nodup)
    (hfresh : mapGet st.sessions (getSessionKey u w) = none)
    (hfull : st.sessions.length = maxSessions)
    (hold : ∃ e ∈ st.sessions, e.2.lastActivity < now) :
    (getOrCreateSession maxSessions st u w cfg hist now).1.sessions.length = maxSessions
    ∧ (∃ e ∈ st.sessions,
        e.2.lastActivity < now
        ∧ (∀ e' ∈ st.sessions, e.2.lastActivity ≤ e'.2.lastActivity)
        ∧ (getOrCreateSession maxSessions st u w cfg hist now).1.disconnectLog
            = st.disconnectLog ++ [e.2.id]
        ∧ (getOrCreateSession maxSessions st u w cfg hist now).1.evictionCount
            = st.evictionCount + 1)
    ∧ (∀ st' : ManagerState, st'.sessions.length < maxSessions →
        mapGet st'.sessions (getSessionKey u w) = none →
        (getOrCreateSession maxSessions st' u w cfg hist now).1.sessions.length
          = st'.sessions.length + 1) := by
  have hpos : 0 < st.sessions.length := by
    rcases hold with ⟨e, he, _⟩
    exact List.length_pos.mpr (List.ne_nil_of_mem he)
  rcases scanOldest_found st.sessions (none, now) hold with ⟨e, he, hscan⟩
  have hgete : mapGet st.sessions e.1 = some e.2 := mem_mapGet hnodup he
  have hcap : st.sessions.length ≥ maxSessions := le_of_eq hfull.symm
  have hlen0 : ¬ st.sessions.length = 0 := by omega
  have hrun : getOrCreateSession maxSessions st u w cfg hist now
      = createSession (evictOldestSession st now) u w cfg hist now := by
    simp [getOrCreateSession, hfresh, hcap]
  have hevict : (evictOldestSession st now).sessions = mapDelete st.sessions e.1
      ∧ (evictOldestSession st now).disconnectLog = st.disconnectLog ++ [e.2.id]
      ∧ (evictOldestSession st now).evictionCount = st.evictionCount + 1 := by
    simp [evictOldestSession, hlen0, hscan, destroySession, hgete]
  have hfresh2 : mapGet (mapDelete st.sessions e.1) (getSessionKey u w) = none :=
    mapGet_mapDelete_none hfresh
  have hmin : ∀ e' ∈ st.sessions, e.2.lastActivity ≤ e'.2.lastActivity := by
    intro e' he'
    have hle := (scanOldest_le st.sessions (none, now)).2 e' he'
    rw [hscan] at hle
    exact hle
  have hlt : e.2.lastActivity < now := by
    rcases hold with ⟨e0, he0, hlt0⟩
    exact lt_of_le_of_lt (hmin e0 he0) hlt0
  refine ⟨?_, ⟨e, he, hlt, hmin, ?_, ?_⟩, ?_⟩
  · rw [hrun]
    have : (createSession (evictOldestSession st now) u w cfg hist now).1.sessions
        = mapSet (evictOldestSession st now).sessions (getSessionKey u w) _ := rfl
    rw [this, hevict.1, mapSet_length_of_none _ hfresh2]
    have := mapDelete_length hgete
    omega
  · rw [hrun]
    have : (createSession (evictOldestSession st now) u w cfg hist now).1.disconnectLog
        = (evictOldestSession st now).disconnectLog := rfl
    rw [this, hevict.2.1]
  · rw [hrun]
    have : (createSession (evictOldestSession st now) u w cfg hist now).1.evictionCount
        = (evictOldestSession st now).evictionCount := rfl
    rw [this, hevict.2.2]
  · intro st' hlt' hfresh'
    have hncap : ¬ st'.sessions.length ≥ maxSessions := by omega
    have hrun' : getOrCreateSession maxSessions st' u w cfg hist now
        = createSession st' u w cfg hist now := by
      simp [getOrCreateSession, hfresh', hncap]
    rw [hrun']
    have : (createSession st' u w cfg hist now).1.sessions
        = mapSet st'.sessions (getSessionKey u w) _ := rfl
    rw [this, mapSet_length_of_none _ hfresh']

/-- Witness for the amended C2 at a concrete input. -/
theorem C2_amended_witness :
    (getOrCreateSession 1 c2stateOld "b" "w"
        { modelName := "MiniMax-M2", permissionMode := "yolo" } [] 5).1.sessions.length = 1
    ∧ (∃ e ∈ c2stateOld.sessions,
        e.2.lastActivity < 5
        ∧ (∀ e' ∈ c2stateOld.sessions, e.2.lastActivity ≤ e'.2.lastActivity)
        ∧ (getOrCreateSession 1 c2stateOld "b" "w"
            { modelName := "MiniMax-M2", permissionMode := "yolo" } [] 5).1.disconnectLog
            = c2stateOld.disconnectLog ++ [e.2.id]
        ∧ (getOrCreateSession 1 c2stateOld "b" "w"
            { modelName := "MiniMax-M2", permissionMode := "yolo" } [] 5).1.evictionCount
            = c2stateOld.evictionCount + 1) :=
  ⟨(C2_amended_capacity_eviction 1 c2stateOld "b" "w"
      { modelName := "MiniMax-M2", permissionMode := "yolo" } [] 5
      (by decide) (by decide) (by decide) (by decide)).1,
   (C2_amended_capacity_eviction 1 c2stateOld "b" "w"
      { modelName := "MiniMax-M2", permissionMode := "yolo" } [] 5
      (by decide) (by decide) (by decide) (by decide)).2.1⟩

/-- C5: for the same key, (i) a matching config refreshes `lastActivity` and
returns the identical session (same `id`, nothing disconnected); (ii) a
differing config destroys the old session first — its client disconnected
exactly once, recorded as exactly one new log entry — and creates a fresh
session with a different `id`, stored under the key; (iii) with no existing
session, a fresh first-message session with the next fresh `id` is
created.  The hypotheses are the pool invariants: every pooled id was
drawn from the fresh-id supply, and the pool is within capacity. -/
theorem C5_getOrCreate_contract (maxSessions : Nat) (st : ManagerState)
    (u w : String) (cfg : SessionConfig) (hist : List HistMessage) (now : Nat)
    (hb : ∀ e ∈ st.sessions, e.2.id < st.nextId)
    (hsz : st.sessions.length ≤ maxSessions) :
    (∀ ex, mapGet st.sessions (getSessionKey u w) = some ex →
      ex.modelName = cfg.modelName → ex.permissionMode = cfg.permissionMode →
      (getOrCreateSession maxSessions st u w cfg hist now).2.id = ex.id
      ∧ (getOrCreateSession maxSessions st u w cfg hist now).2
          = { ex with lastActivity := now }
      ∧ (getOrCreateSession maxSessions st u w cfg hist now).1.sessions
          = mapSet st.sessions (getSessionKey u w) { ex with lastActivity := now }
      ∧ (getOrCreateSession maxSessions st u w cfg hist now).1.disconnectLog
          = st.disconnectLog)
    ∧ (∀ ex, mapGet st.sessions (getSessionKey u w) = some ex →
      ¬ (ex.modelName = cfg.modelName ∧ ex.permissionMode = cfg.permissionMode) →
      (getOrCreateSession maxSessions st u w cfg hist now).1.disconnectLog
          = st.disconnectLog ++ [ex.id]
      ∧ (getOrCreateSession maxSessions st u w cfg hist now).2.id = st.nextId
      ∧ (getOrCreateSession maxSessions st u w cfg hist now).2.id ≠ ex.id
      ∧ mapGet (getOrCreateSession maxSessions st u w cfg hist now).1.sessions
          (getSessionKey u w)
          = some (getOrCreateSession maxSessions st u w cfg hist now).2
      ∧ (getOrCreateSession maxSessions st u w cfg hist now).2.isFirstMessage = true)
    ∧ (mapGet st.sessions (getSessionKey u w) = none →
      (getOrCreateSession maxSessions st u w cfg hist now).2.id = st.nextId
      ∧ (getOrCreateSession maxSessions st u w cfg hist now).2.isFirstMessage = true
      ∧ mapGet (getOrCreateSession maxSessions st u w cfg hist now).1.sessions
          (getSessionKey u w)
          = some (getOrCreateSession maxSessions st u w cfg hist now).2) := by
  refine ⟨?_, ?_, ?_⟩
  · intro ex hget hm hp
    have hrun : getOrCreateSession maxSessions st u w cfg hist now
        = ({ st with sessions := mapSet st.sessions (getSessionKey u w) { ex with lastActivity := now } },
           { ex with lastActivity := now }) := by
      simp [getOrCreateSession, hget, hm, hp]
    rw [hrun]
    exact ⟨rfl, rfl, rfl, rfl⟩
  · intro ex hget hcfg
    have hmem : (getSessionKey u w, ex) ∈ st.sessions := mapGet_some_mem hget
    have hlenpos : 0 < st.sessions.length :=
      List.length_pos.mpr (List.ne_nil_of_mem hmem)
    have hdlen := mapDelete_length hget
    have hncap : ¬ (destroySession st (getSessionKey u w)).sessions.length ≥ maxSessions := by
      have : (destroySession st (getSessionKey u w)).sessions
          = mapDelete st.sessions (getSessionKey u w) := by
        simp [destroySession, hget]
      rw [this]
      omega
    have hrun : getOrCreateSession maxSessions st u w cfg hist now
        = createSession (destroySession st (getSessionKey u w)) u w cfg hist now := by
      simp [getOrCreateSession, hget, hcfg, hncap]
    have hid : ex.id < st.nextId := hb _ hmem
    have hdest : destroySession st (getSessionKey u w)
        = { st with
              sessions := mapDelete st.sessions (getSessionKey u w)
              disconnectLog := st.disconnectLog ++ [ex.id]
              totalDestroyed := st.totalDestroyed + 1 } := by
      simp [destroySession, hget]
    rw [hrun, hdest]
    refine ⟨rfl, rfl, ?_, ?_, rfl⟩
    · show st.nextId ≠ ex.id
      omega
    · exact mapGet_mapSet_self _ _ _
  · intro hget
    by_cases hcap : st.sessions.length ≥ maxSessions
    · have hrun : getOrCreateSession maxSessions st u w cfg hist now
          = createSession (evictOldestSession st now) u w cfg hist now := by
        simp [getOrCreateSession, hget, hcap]
      have hnid : (evictOldestSession st now).nextId = st.nextId := by
        unfold evictOldestSession
        by_cases h0 : st.sessions.length = 0
        · simp [h0]
        · simp only [h0, if_false]
          cases hsc : (scanOldest (none, now) st.sessions).1 with
          | none => simp
          | some k =>
            simp only
            unfold destroySession
            cases hg : mapGet st.sessions k <;> simp
      rw [hrun]
      exact ⟨by simp [createSession, hnid], rfl, mapGet_mapSet_self _ _ _⟩
    · have hrun : getOrCreateSession maxSessions st u w cfg hist now
          = createSession st u w cfg hist now := by
        simp [getOrCreateSession, hget, hcap]
      rw [hrun]
      exact ⟨rfl, rfl, mapGet_mapSet_self _ _ _⟩

/-- Witness for C5 at a concrete input: a config change for key `"a:w"`
disconnects the old session exactly once and returns a session with the
fresh (different) id. -/
theorem C5_witness :
    (getOrCreateSession 1000 c5state "a" "w"
        { modelName := "GLM-4.6", permissionMode := "yolo" } [] 7).1.disconnectLog
      = c5state.disconnectLog ++ [c5sess.id]
    ∧ (getOrCreateSession 1000 c5state "a" "w"
        { modelName := "GLM-4.6", permissionMode := "yolo" } [] 7).2.id = c5state.nextId
    ∧ (getOrCreateSession 1000 c5state "a" "w"
        { modelName := "GLM-4.6", permissionMode := "yolo" } [] 7).2.id ≠ c5sess.id :=
  ⟨((C5_getOrCreate_contract 1000 c5state "a" "w"
      { modelName := "GLM-4.6", permissionMode := "yolo" } [] 7
      (by decide) (by decide)).2.1 c5sess (by decide) (by decide)).1,
   ((C5_getOrCreate_contract 1000 c5state "a" "w"
      { modelName := "GLM-4.6", permissionMode := "yolo" } [] 7
      (by decide) (by decide)).2.1 c5sess (by decide) (by decide)).2.1,
   ((C5_getOrCreate_contract 1000 c5state "a" "w"
      { modelName := "GLM-4.6", permissionMode := "yolo" } [] 7
      (by decide) (by decide)).2.1 c5sess (by decide) (by decide)).2.2.1⟩

theorem sendTurn_not_first (s : PoolSession) (m : String)
    (h : s.isFirstMessage = false) : sendTurn s m = (s, m) := by
  simp [sendTurn, h]

theorem sendTurns_not_first (ms : List String) :
    ∀ s : PoolSession, s.isFirstMessage = false → sendTurns s ms = (s, ms) := by
  induction ms with
  | nil => intro s h; rfl
  | cons m ms ih =>
    intro s h
    simp [sendTurns, sendTurn_not_first s m h, ih s h]

/-- C3: a session freshly produced by `createSession` whose stored history
prefix is non-empty transmits `prefix ++ message` on its first send, and
every subsequent send for that session transmits the user text
unmodified. -/
theorem C3_history_prefix_consumed_on_first_send (st : ManagerState)
    (u w : String) (cfg : SessionConfig) (msgs : List HistMessage) (now : Nat)
    (h : String) (hh : buildHistoryContext msgs = some h) (hne : h ≠ "")
    (m : String) (ms : List String) :
    (sendTurns (createSession st u w cfg msgs now).2 (m :: ms)).2 = (h ++ m) :: ms
    ∧ (sendTurns (createSession st u w cfg msgs now).2 (m :: ms)).1.isFirstMessage = false := by
  have hsess : (createSession st u w cfg msgs now).2.historyContext = some h := by
    simp [createSession, hh]
  have hfirst : (createSession st u w cfg msgs now).2.isFirstMessage = true := rfl
  have htruthy2 : truthyStr (some h) = true := by
    simpa [truthyStr] using hne
  have hstep : sendTurn (createSession st u w cfg msgs now).2 m
      = ({ (createSession st u w cfg msgs now).2 with isFirstMessage := false }, h ++ m) := by
    unfold sendTurn
    rw [hfirst, hsess, htruthy2]
    simp [hsess]
  have hrest := sendTurns_not_first ms
    { (createSession st u w cfg msgs now).2 with isFirstMessage := false } rfl
  constructor
  · simp [sendTurns, hstep, hrest]
  · simp [sendTurns, hstep, hrest]

/-- Witness for C3 at a concrete input. -/
theorem C3_witness :
    (sendTurns (createSession ManagerState.init "a" "w"
        { modelName := "MiniMax-M2", permissionMode := "yolo" }
        [{ role := "user", content := some "hi" }] 5).2
      ["question", "followup"]).2 = ("hi\n\n" ++ "question") :: ["followup"] :=
  (C3_history_prefix_consumed_on_first_send ManagerState.init "a" "w"
    { modelName := "MiniMax-M2", permissionMode := "yolo" }
    [{ role := "user", content := some "hi" }] 5 "hi\n\n" rfl (by decide)
    "question" ["followup"]).1

/-- C4: the history context built at session creation uses exactly the
most recent `min MAX_CONTEXT_MESSAGES (length msgs)` messages (a suffix of
the conversation, at most 20 entries), and each included message
contributes its content unchanged when it is at most `MAX_MESSAGE_LENGTH`
characters, and otherwise exactly its first `MAX_MESSAGE_LENGTH`
characters followed by the three-character ellipsis marker. -/
theorem C4_history_bounded_and_truncated (msgs : List HistMessage)
    (hne : 0 < msgs.length) :
    (sliceLast MAX_CONTEXT_MESSAGES msgs).length ≤ MAX_CONTEXT_MESSAGES
    ∧ (sliceLast MAX_CONTEXT_MESSAGES msgs).length
        = min MAX_CONTEXT_MESSAGES msgs.length
    ∧ (∃ pre, msgs = pre ++ sliceLast MAX_CONTEXT_MESSAGES msgs)
    ∧ buildHistoryContext msgs
        = some (String.intercalate "\n\n"
            ((sliceLast MAX_CONTEXT_MESSAGES msgs).map
              fun mm => truncateContent (mm.content.getD "")) ++ "\n\n")
    ∧ (∀ c : String, c.length ≤ MAX_MESSAGE_LENGTH → truncateContent c = c)
    ∧ (∀ c : String, MAX_MESSAGE_LENGTH < c.length →
        truncateContent c = c.take MAX_MESSAGE_LENGTH ++ "..."
        ∧ (c.take MAX_MESSAGE_LENGTH).length = MAX_MESSAGE_LENGTH) := by
  refine ⟨?_, ?_, ?_, ?_, ?_, ?_⟩
  · simp [sliceLast]
    omega
  · simp [sliceLast]
    omega
  · exact ⟨msgs.take (msgs.length - MAX_CONTEXT_MESSAGES),
      (List.take_append_drop _ msgs).symm⟩
  · simp [buildHistoryContext, hne]
  · intro c hc
    simp [truncateContent, Nat.not_lt.mpr hc]
  · intro c hc
    refine ⟨by simp [truncateContent, hc], ?_⟩
    rw [String.take_eq]
    have h1 : (String.mk (c.data.take MAX_MESSAGE_LENGTH)).length
        = (c.data.take MAX_MESSAGE_LENGTH).length := rfl
    have h2 : c.data.length = c.length := rfl
    rw [h1, List.length_take]
    omega

/-- Witness for C4 at a concrete input: with 21 stored messages the context
uses exactly the 20 most recent ones. -/
theorem C4_witness :
    (sliceLast MAX_CONTEXT_MESSAGES c4msgs).length ≤ MAX_CONTEXT_MESSAGES
    ∧ (sliceLast MAX_CONTEXT_MESSAGES c4msgs).length
        = min MAX_CONTEXT_MESSAGES c4msgs.length
    ∧ (∃ pre, c4msgs = pre ++ sliceLast MAX_CONTEXT_MESSAGES c4msgs) :=
  ⟨(C4_history_bounded_and_truncated c4msgs (by decide)).1,
   (C4_history_bounded_and_truncated c4msgs (by decide)).2.1,
   (C4_history_bounded_and_truncated c4msgs (by decide)).2.2.1⟩

/-- C9: for the feed split mid-frame into
`["data: \x7b\"typ", "e\":\"text-delta\",\"text\":\"hi\"\x7d\n\n"]`, the
first chunk alone yields no event, leaves the transcript untouched, and is
carried over wholly as the buffer; the full feed yields exactly one
`TextDelta` with text `"hi"`, applied to the assistant message, with an
empty final buffer. -/
theorem C9_reassembly_across_chunks :
    (processChunk (clientInit [demoUser, demoAsst]) c9chunkA).yielded = []
    ∧ (processChunk (clientInit [demoUser, demoAsst]) c9chunkA).messages
        = [demoUser, demoAsst]
    ∧ (processChunk (clientInit [demoUser, demoAsst]) c9chunkA).buffer = c9chunkA
    ∧ (consumeChunks (clientInit [demoUser, demoAsst]) [c9chunkA, c9chunkB]).yielded
        = [.textDelta (some "hi") none]
    ∧ lastContent (consumeChunks (clientInit [demoUser, demoAsst])
        [c9chunkA, c9chunkB]).messages = some (some "hi")
    ∧ (consumeChunks (clientInit [demoUser, demoAsst]) [c9chunkA, c9chunkB]).buffer
        = "" :=
  ⟨rfl, rfl, rfl, rfl, rfl, rfl⟩

/-- Counterexample to C7: the `break` on a terminal event exits only the
inner per-line loop, not the outer read loop, so a well-formed frame in a
*later* chunk is still parsed and applied to the conversation state: after
the finish frame of the first chunk, the text-delta of the second chunk
overwrites the assistant content with "late". -/
theorem C7_counterexample :
    (consumeChunks (clientInit [demoUser, demoAsst]) [c7chunkA, c7chunkB]).yielded
      = [.finish (some "end"), .textDelta (some "late") none]
    ∧ lastContent (consumeChunks (clientInit [demoUser, demoAsst])
        [c7chunkA, c7chunkB]).messages = some (some "late")
    ∧ lastContent (consumeChunks (clientInit [demoUser, demoAsst])
        [c7chunkA]).messages = some (some "")
    ∧ (some (some "late") : Option (Option String)) ≠ some (some "") :=
  ⟨rfl, rfl, rfl, by decide⟩

theorem processLine_stop_eq (st : ClientState) (line : String) :
    (processLine st line).2 = lineTerminal line := by
  unfold processLine lineTerminal
  by_cases h1 : jsTrim line = ""
  · simp [h1]
  · by_cases h2 : jsStartsWith line "data: " = true
    · simp only [h1, h2, if_false, if_true]
      cases parseJson (jsDrop line 6) <;> simp
    · simp [h1, h2]

/-- C7 as amended: a terminal event stops line processing only within the
chunk in which it was observed (complete lines after it in that chunk are
ignored), while the read loop itself keeps running — every later chunk is
still decoded, parsed, and applied; processing ends only when the feed
signals completion. -/
theorem C7_amended_terminal_stops_same_chunk_only (st : ClientState)
    (pre : List String) (termLine : String) (post : List String)
    (hterm : lineTerminal termLine = true) :
    processLines st (pre ++ termLine :: post) = processLines st (pre ++ [termLine])
    ∧ (∀ (st' : ClientState) (c : String) (cs : List String),
        consumeChunks st' (c :: cs) = consumeChunks (processChunk st' c) cs) := by
  constructor
  · induction pre generalizing st with
    | nil =>
      simp only [List.nil_append, processLines]
      have hstop : (processLine st termLine).2 = true := by
        rw [processLine_stop_eq]
        exact hterm
      simp [hstop]
    | cons l pre ih =>
      simp only [List.cons_append, processLines]
      by_cases h : (processLine st l).2
      · simp [h]
      · simp [h, ih]
  · intro st' c cs
    rfl

/-- Witness for the amended C7 at a concrete input. -/
theorem C7_amended_witness :
    lineTerminal "data: \x7b\"type\":\"finish\",\"stopReason\":\"end\"\x7d" = true
    ∧ processLines (clientInit [demoUser, demoAsst])
        (["data: \x7b\"type\":\"text-delta\",\"text\":\"a\"\x7d"] ++
          "data: \x7b\"type\":\"finish\",\"stopReason\":\"end\"\x7d" ::
          ["data: \x7b\"type\":\"text-delta\",\"text\":\"skipped\"\x7d"])
      = processLines (clientInit [demoUser, demoAsst])
        (["data: \x7b\"type\":\"text-delta\",\"text\":\"a\"\x7d"] ++
          ["data: \x7b\"type\":\"finish\",\"stopReason\":\"end\"\x7d"]) :=
  ⟨rfl, (C7_amended_terminal_stops_same_chunk_only (clientInit [demoUser, demoAsst])
    ["data: \x7b\"type\":\"text-delta\",\"text\":\"a\"\x7d"]
    "data: \x7b\"type\":\"finish\",\"stopReason\":\"end\"\x7d"
    ["data: \x7b\"type\":\"text-delta\",\"text\":\"skipped\"\x7d"] rfl).1⟩

theorem lastToolCalls_concat (l : List ChatMessage) (m : ChatMessage) :
    lastToolCalls (l ++ [m]) = m.toolCalls.getD [] := by
  simp [lastToolCalls, List.getLast?_concat]

/-- The spread merge replaces every field: the payload record carries all
keys, so the merged entry is the payload (structure eta). -/
theorem mergeSpread_eq (a b : CToolCall) : mergeSpread a b = b := rfl

theorem mapWithIndex_length (f : Nat → CToolCall → CToolCall) (l : List CToolCall) :
    ∀ n, (mapWithIndex f n l).length = l.length := by
  induction l with
  | nil => intro n; rfl
  | cons x xs ih => intro n; simp [mapWithIndex, ih]

theorem mapWithIndex_getElem (f : Nat → CToolCall → CToolCall) (l : List CToolCall) :
    ∀ n k, (mapWithIndex f n l)[k]? = (l[k]?).map fun tc => f (n + k) tc := by
  induction l with
  | nil => intro n k; simp [mapWithIndex]
  | cons x xs ih =>
    intro n k
    cases k with
    | zero => simp [mapWithIndex]
    | succ k =>
      simp only [mapWithIndex, List.getElem?_cons_succ]
      rw [ih (n + 1) k]
      have harith : n + 1 + k = n + (k + 1) := by omega
      rw [harith]

/-- Unfolding of the `UPDATE_LAST_TOOL_CALL` case of the reducer on an
assistant-last transcript. -/
theorem messagesReducer_toolCall_eq (state : List ChatMessage)
    (lastMsg : ChatMessage) (payload : CToolCall)
    (hlast : state.getLast? = some lastMsg) (hrole : lastMsg.role = "assistant") :
    messagesReducer state (.updateLastToolCall payload)
      = state.dropLast ++
        [{ lastMsg with
             toolCalls := some
               (match (lastMsg.toolCalls.getD []).findIdx?
                   (fun tc => tc.toolName == payload.toolName) with
                | some i => mapWithIndex
                    (fun idx tc => if idx = i then mergeSpread tc payload else tc) 0
                    (lastMsg.toolCalls.getD [])
                | none => lastMsg.toolCalls.getD [] ++ [payload]) }] := by
  unfold messagesReducer
  rw [hlast]
  simp [hrole]

/-- Counterexample to C8: the payload record built in `sendMessage` always
carries all keys, so the spread merge overwrites with `undefined` too —
applying `ToolCall(toolName:"read", status:"executing")` (no `result`) to
an entry holding `result:"X"` leaves a single entry whose `result` is
`undefined`, not `"X"`, refuting "incoming undefined fields leave existing
values intact". -/
theorem C8_counterexample :
    (lastToolCalls (messagesReducer [c8msg]
        (.updateLastToolCall c8exec))).map CToolCall.result = [none]
    ∧ (lastToolCalls (messagesReducer [c8msg]
        (.updateLastToolCall c8exec))).length = 1
    ∧ ([none] : List (Option Json)) ≠ [some (.str "X")] :=
  ⟨rfl, rfl, by simp⟩

/-- C8 as amended: the `ToolCall` rule of the reducer finds the first entry
with the same `toolName`; when found it replaces that entry *wholesale*
with the incoming payload (every field, incoming `undefined` fields
included, because the payload record carries all keys), leaving all other
entries unchanged and appending nothing; when not found it appends the
payload; and the concrete instance given in the claim holds: applying
`executing` then `completed`/`result:"X"` to a fresh assistant message
yields exactly one entry with `status:"completed"` and `result:"X"`. -/
theorem C8_amended_merge_replaces_wholesale (state : List ChatMessage)
    (lastMsg : ChatMessage) (payload : CToolCall)
    (hlast : state.getLast? = some lastMsg) (hrole : lastMsg.role = "assistant") :
    (∀ i, (lastMsg.toolCalls.getD []).findIdx?
        (fun tc => tc.toolName == payload.toolName) = some i →
      (lastToolCalls (messagesReducer state (.updateLastToolCall payload))).length
          = (lastMsg.toolCalls.getD []).length
      ∧ (∀ ex, (lastMsg.toolCalls.getD [])[i]? = some ex →
          (lastToolCalls (messagesReducer state (.updateLastToolCall payload)))[i]?
            = some payload)
      ∧ (∀ j, j ≠ i →
          (lastToolCalls (messagesReducer state (.updateLastToolCall payload)))[j]?
            = (lastMsg.toolCalls.getD [])[j]?))
    ∧ ((lastMsg.toolCalls.getD []).findIdx?
        (fun tc => tc.toolName == payload.toolName) = none →
      lastToolCalls (messagesReducer state (.updateLastToolCall payload))
        = lastMsg.toolCalls.getD [] ++ [payload])
    ∧ lastToolCalls (messagesReducer (messagesReducer [demoAsst]
          (.updateLastToolCall c8exec)) (.updateLastToolCall c8completedX))
        = [c8completedX]
    ∧ c8completedX.status = some "completed"
    ∧ c8completedX.result = some (.str "X") := by
  have heq := messagesReducer_toolCall_eq state lastMsg payload hlast hrole
  refine ⟨?_, ?_, rfl, rfl, rfl⟩
  · intro i hfind
    rw [heq, hfind, lastToolCalls_concat]
    refine ⟨by simp [mapWithIndex_length], ?_, ?_⟩
    · intro ex hex
      rw [show ({ lastMsg with
            toolCalls := some (mapWithIndex
              (fun idx tc => if idx = i then mergeSpread tc payload else tc) 0
              (lastMsg.toolCalls.getD [])) } : ChatMessage).toolCalls.getD []
          = mapWithIndex (fun idx tc => if idx = i then mergeSpread tc payload else tc) 0
              (lastMsg.toolCalls.getD []) from rfl]
      rw [mapWithIndex_getElem, hex]
      simp [mergeSpread_eq]
    · intro j hj
      rw [show ({ lastMsg with
            toolCalls := some (mapWithIndex
              (fun idx tc => if idx = i then mergeSpread tc payload else tc) 0
              (lastMsg.toolCalls.getD [])) } : ChatMessage).toolCalls.getD []
          = mapWithIndex (fun idx tc => if idx = i then mergeSpread tc payload else tc) 0
              (lastMsg.toolCalls.getD []) from rfl]
      rw [mapWithIndex_getElem]
      cases (lastMsg.toolCalls.getD [])[j]? with
      | none => simp
      | some tc => simp [hj]
  · intro hfind
    rw [heq, hfind, lastToolCalls_concat]
    rfl

/-- Witness for the amended C8 at a concrete input: merging into `c8msg`
(one existing `read` entry) replaces the entry wholesale. -/
theorem C8_amended_witness :
    (lastToolCalls (messagesReducer [c8msg] (.updateLastToolCall c8exec))).length
      = (c8msg.toolCalls.getD []).length
    ∧ (lastToolCalls (messagesReducer [c8msg] (.updateLastToolCall c8exec)))[0]?
      = some c8exec :=
  ⟨((C8_amended_merge_replaces_wholesale [c8msg] c8msg c8exec rfl rfl).1 0 rfl).1,
   ((C8_amended_merge_replaces_wholesale [c8msg] c8msg c8exec rfl rfl).1 0 rfl).2.1
     c8existing rfl⟩
